import Mathlib

/-!
Shallow embedding of BigARTM's batch processor
(`src/artm/core/processor.cc`, `src/artm/core/processor_transaction_helpers.cc`).

`float32` / `double` values are modelled as exact rationals.  IEEE division
validity is tracked by `Option`-valued twins of the division sites
(`none` models a non-finite result arising from a zero divisor).
Regularizers, score calculators, the BLAS facility and the random generator
are external collaborators of the processor sources; they appear as abstract
function parameters or as definitions modelled from the spec (marked below).
-/

abbrev Vec := List ℚ

abbrev ClassId := String

/-- `1e-16`: the denormal threshold used at Phi load and Theta normalization. -/
def eps16 : ℚ := 1 / 10 ^ 16

/-- `kTransactionsEps = 1e-100`. -/
def epsTx : ℚ := 1 / 10 ^ 100

/-- Modelled from the spec: BLAS `sdot` (`artm/utility/blas` is outside the
processor sources); the dot product of two vectors. -/
def dot (a b : Vec) : ℚ := (List.zipWith (fun x y => x * y) a b).sum

/-- Modelled from the spec: BLAS `saxpy`; `y + a • x`, componentwise. -/
def axpy (a : ℚ) (x y : Vec) : Vec := List.zipWith (fun xi yi => yi + a * xi) x y

/-- Componentwise vector sum (the `ntd_ptr[k] += …` accumulation). -/
def vecAdd (a b : Vec) : Vec := List.zipWith (fun x y => x + y) a b

/-- `ApplyByElement<0>`: elementwise product of two equally-shaped matrices. -/
def hadamard (A B : List Vec) : List Vec :=
  List.zipWith (fun r s => List.zipWith (fun x y => x * y) r s) A B

/-- The body of `ApplyByElement<1>`: `first / second`, with a zero result when
either operand is zero (processor.cc lines 192-199). -/
def elemDiv (a b : ℚ) : ℚ := if a = 0 ∨ b = 0 then 0 else a / b

/-- `ApplyByElement<1>` over whole matrices: `A ⊘ B` elementwise. -/
def elemDivM (A B : List Vec) : List Vec :=
  List.zipWith (fun r s => List.zipWith elemDiv r s) A B

/-- IEEE division validity twin: `none` models the non-finite float
(`NaN` or `±∞`) produced by dividing by zero. -/
def fdivChk (a b : ℚ) : Option ℚ := if b = 0 then none else some (a / b)

/- ---------------------------------------------------------------------------
Data model (protobuf messages used by the processor).
--------------------------------------------------------------------------- -/

structure FieldData where
  token_id : List Nat
  token_count : List Int

/-- A batch item.  `field` carries the bag-of-words pairs; `token_id`,
`token_weight`, `transaction_start_index` and `transaction_typename_id`
carry the transaction stream. -/
structure Item where
  id : Nat
  field : List FieldData
  token_id : List Nat
  token_weight : List ℚ
  transaction_start_index : List Nat
  transaction_typename_id : List Nat

def emptyItem : Item := ⟨0, [], [], [], [], []⟩

instance : Inhabited Item := ⟨emptyItem⟩

structure Batch where
  item : List Item
  token : List String
  class_id : List ClassId
  transaction_typename : List String

structure DataLoaderCacheEntry where
  batch_uuid : String
  model_name : String
  item_id : List Nat
  theta : List Vec
  topic_name : List String

structure ProcessorInput where
  batch : Batch
  batch_uuid : String
  stream_name : List String
  stream_mask : List (List Bool)
  cached_theta : List DataLoaderCacheEntry

structure ModelConfig where
  name : String
  topics_count : Nat
  topic_name : List String
  enabled : Bool
  inner_iterations_count : Nat
  use_sparse_bow : Bool
  reuse_theta : Bool
  use_random_theta : Bool
  stream_name : String
  class_id : List ClassId
  class_weight : List ℚ
  score_name : List String

/-- Read-only snapshot of the global topic model: `token_weights` returns the
per-topic weight vector of a token when the model has it (`has_token`). -/
structure TopicModel where
  topic_size : Nat
  topic_name : List String
  token_weights : ClassId × String → Option Vec

def TopicModel.has_token (tm : TopicModel) (t : ClassId × String) : Bool :=
  (tm.token_weights t).isSome

def batchToken (batch : Batch) (i : Nat) : ClassId × String :=
  (batch.class_id.getD i "", batch.token.getD i "")

/-- The combined effect of the schema's Theta regularizer chain for one item
(`regularizer->RegularizeTheta`, an external plug-in interface): arguments are
the inner iteration, the item index and the scratch vector `theta_next`. -/
abbrev RegFun := Nat → Nat → Vec → Vec

/-- `ThreadSafeRandom::singleton().GenerateFloat()` (external helper):
a value per (item, topic) position. -/
abbrev RandFun := Nat → Nat → ℚ

/- ---------------------------------------------------------------------------
CSR matrix and batch preparation.
--------------------------------------------------------------------------- -/

structure CsrMatrixQ where
  n : Nat
  val : List ℚ
  row_ptr : List Nat
  col_ind : List Nat

/-- The entries `(col_ind[i], val[i])` of row `d`, i.e. the half-open slice
`[row_ptr[d], row_ptr[d+1])` that the EM loops iterate over. -/
def csrRowEntries (csr : CsrMatrixQ) (d : Nat) : List (Nat × ℚ) :=
  ((csr.col_ind.zip csr.val).drop (csr.row_ptr.getD d 0)).take
    (csr.row_ptr.getD (d + 1) 0 - csr.row_ptr.getD d 0)

/-- The `class_id_to_weight` map of `InitializeSparseNdw`: `std::map::insert`
keeps the first occurrence of a duplicated key, hence `find?`. -/
def classMapFind (cfg : ModelConfig) (cid : ClassId) : Option ℚ :=
  ((cfg.class_id.zip cfg.class_weight).find? (fun p => p.1 == cid)).map (fun p => p.2)

/-- The `class_weight` factor applied to one token occurrence
(processor.cc lines 475-480). -/
def tokenClassWeight (cfg : ModelConfig) (batch : Batch) (token_id : Nat) : ℚ :=
  if cfg.class_id.length ≠ 0 then
    match classMapFind cfg (batch.class_id.getD token_id "") with
    | some w => w
    | none => 0
  else 1

/-- All `(token_id, token_count)` pairs of an item, in field order. -/
def itemPairs (it : Item) : List (Nat × Int) :=
  it.field.flatMap (fun f => f.token_id.zip f.token_count)

/-- The CSR entries emitted for one item by `InitializeSparseNdw`. -/
def itemEntries (cfg : ModelConfig) (batch : Batch) (it : Item) : List (Nat × ℚ) :=
  it.field.flatMap (fun f => (f.token_id.zip f.token_count).map
    (fun p => (p.1, tokenClassWeight cfg batch p.1 * (p.2 : ℚ))))

/-- `InitializeSparseNdw` (processor.cc lines 452-491): one CSR row per item,
entries pushed field by field; `row_ptr[d]` records the number of entries
pushed before item `d`. -/
def InitializeSparseNdw (batch : Batch) (cfg : ModelConfig) : CsrMatrixQ :=
  let rows := batch.item.map (itemEntries cfg batch)
  { n := batch.token.length
    val := rows.flatten.map (fun e => e.2)
    row_ptr := (List.range (batch.item.length + 1)).map (fun d => ((rows.take d).flatten).length)
    col_ind := rows.flatten.map (fun e => e.1) }

def zerosMat (rows cols : Nat) : List Vec := List.replicate rows (List.replicate cols (0 : ℚ))

/-- One `+=` into a dense matrix held as a list of rows; out-of-range
indices leave the matrix unchanged. -/
def updAt (m : List Vec) (r c : Nat) (x : ℚ) : List Vec :=
  List.modify (fun row => List.modify (fun v => v + x) c row) r m

/-- The sequence of `(token_id, item_index, token_count)` accumulations
performed by `InitializeDenseNdw`'s nested loops. -/
def denseUpdates (batch : Batch) : List (Nat × Nat × Int) :=
  (List.range batch.item.length).flatMap
    (fun d => (itemPairs (batch.item.getD d emptyItem)).map (fun p => (p.1, d, p.2)))

/-- `InitializeDenseNdw` (processor.cc lines 493-510): a zero-initialized
`token_size × item_size` matrix with `token_count` accumulated into
`(token_id, item_index)`; no class weight is consulted. -/
def InitializeDenseNdw (batch : Batch) : List Vec :=
  (denseUpdates batch).foldl (fun m u => updAt m u.1 u.2.1 (u.2.2 : ℚ))
    (zerosMat batch.token.length batch.item.length)

/-- The cold Theta column: uniform `1/topics_count`, or fresh random floats
when `use_random_theta`. -/
def thetaColdCol (cfg : ModelConfig) (rand : RandFun) (item_index : Nat) : Vec :=
  (List.range cfg.topics_count).map (fun k =>
    if cfg.use_random_theta then rand item_index k else 1 / (cfg.topics_count : ℚ))

/-- `InitializeTheta` (processor.cc lines 322-359), as the list of item
columns (each of length `topics_count`). -/
def InitializeTheta (batch : Batch) (cfg : ModelConfig)
    (cache : Option DataLoaderCacheEntry) (rand : RandFun) : List Vec :=
  batch.item.mapIdx (fun item_index it =>
    match cache with
    | some c =>
      if cfg.reuse_theta && c.item_id.contains it.id then
        (List.range cfg.topics_count).map
          (fun k => (c.theta.getD (c.item_id.indexOf it.id) []).getD k 0)
      else thetaColdCol cfg rand item_index
    | none => thetaColdCol cfg rand item_index)

/-- One Phi row: the token's per-topic weights with values below `1e-16`
reset to `0`, or a zero row when the model lacks the token. -/
def phiRow (tm : TopicModel) (tok : ClassId × String) : Vec :=
  match tm.token_weights tok with
  | some ws => (List.range tm.topic_size).map (fun k =>
      if ws.getD k 0 < eps16 then 0 else ws.getD k 0)
  | none => List.replicate tm.topic_size 0

/-- `InitializePhi` (processor.cc lines 361-391): `none` when no batch token
is known to the model (`phi_is_empty`). -/
def InitializePhi (batch : Batch) (cfg : ModelConfig) (tm : TopicModel) :
    Option (List Vec) :=
  if (List.range batch.token.length).all (fun i => !(tm.has_token (batchToken batch i))) then
    none
  else
    some ((List.range batch.token.length).map (fun i => phiRow tm (batchToken batch i)))

/- ---------------------------------------------------------------------------
Theta regularization and normalization (processor.cc lines 393-450).
--------------------------------------------------------------------------- -/

/-- Step 3 of the normalization: clip negative entries to `0`. -/
def clipNeg (v : Vec) : Vec := v.map (fun x => if x < 0 then 0 else x)

/-- The pre-division sum: `sum += theta_next[topic_index]` over the first
`topic_size` entries of the clipped vector. -/
def preNormSum (topic_size : Nat) (v : Vec) : ℚ :=
  ((List.range topic_size).map (fun k => (clipNeg v).getD k 0)).sum

/-- `if (val < 1e-16f) val = 0.0f`. -/
def snap16 (x : ℚ) : ℚ := if x < eps16 then 0 else x

/-- Steps 3-5 for one item column: clip, sum, divide (or zero out when the
sum is not positive), snap small values to `0`. -/
def normCol (topic_size : Nat) (theta_next : Vec) : Vec :=
  (List.range topic_size).map (fun k =>
    snap16 (if preNormSum topic_size theta_next > 0 then
      (clipNeg theta_next).getD k 0 / preNormSum topic_size theta_next else 0))

/-- `RegularizeAndNormalizeTheta`: per item column, run the regularizer chain
(abstracted as `reg`), then clip / normalize / snap. -/
def RegularizeAndNormalizeTheta (reg : RegFun) (inner_iter : Nat) (cfg : ModelConfig)
    (theta : List Vec) : List Vec :=
  theta.mapIdx (fun item_index col => normCol cfg.topics_count (reg inner_iter item_index col))

/- ---------------------------------------------------------------------------
EM inner loop, sparse BOW (processor.cc lines 512-572).
--------------------------------------------------------------------------- -/

/-- Lines 527-530, one nonzero of row `d`: `p_dw = ⟨phi[w,:], theta[:,d]⟩`;
skip when `p_dw == 0`, else `acc += (n_dw/p_dw) • phi[w,:]`. -/
def sparseNtdStep (phiRow thetaCol : Vec) (v : ℚ) (acc : Vec) : Vec :=
  if dot phiRow thetaCol = 0 then acc
  else axpy (v / dot phiRow thetaCol) phiRow acc

/-- Division-validity twin of `sparseNtdStep`. -/
def sparseNtdStepChk (phiRow thetaCol : Vec) (v : ℚ) (acc : Vec) : Option Vec :=
  if dot phiRow thetaCol = 0 then some acc
  else (fdivChk v (dot phiRow thetaCol)).map (fun c => axpy c phiRow acc)

/-- The `n_td` column of one document: fold of `sparseNtdStep` over the
nonzeros of `sparse_ndw` row `d`, starting from the zero column. -/
def nTdCol (phi : List Vec) (entries : List (Nat × ℚ)) (thetaCol : Vec)
    (topics_count : Nat) : Vec :=
  entries.foldl (fun acc e => sparseNtdStep (phi.getD e.1 []) thetaCol e.2 acc)
    (List.replicate topics_count 0)

/-- One sparse inner iteration: build `n_td`, `theta ← theta ⊙ n_td`,
then regularize and normalize. -/
def sparseInnerIter (reg : RegFun) (cfg : ModelConfig) (sparse_ndw : CsrMatrixQ)
    (phi : List Vec) (topics_count inner_iter : Nat) (theta : List Vec) : List Vec :=
  RegularizeAndNormalizeTheta reg inner_iter cfg
    (hadamard theta
      (theta.mapIdx (fun d col => nTdCol phi (csrRowEntries sparse_ndw d) col topics_count)))

/-- The BOW loops run `for (inner_iter = 0; inner_iter < inner_iterations_count; ++inner_iter)`. -/
def bowPassSchedule (cfg : ModelConfig) : List Nat := List.range cfg.inner_iterations_count

def thetaLoopSparse (reg : RegFun) (cfg : ModelConfig) (sparse_ndw : CsrMatrixQ)
    (phi : List Vec) (topics_count : Nat) (theta : List Vec) : List Vec :=
  (bowPassSchedule cfg).foldl
    (fun th it => sparseInnerIter reg cfg sparse_ndw phi topics_count it th) theta

/-- Modelled from the spec: the CSR transpose `sparse_nwd` is produced by the
external BLAS `scsr2csc`; row `w` of the transpose lists, document-major, the
entries of column `w` of `sparse_ndw`. -/
def csrColEntries (csr : CsrMatrixQ) (docs_count w : Nat) : List (Nat × ℚ) :=
  (List.range docs_count).flatMap (fun d =>
    ((csrRowEntries csr d).filter (fun e => e.1 == w)).map (fun e => (d, e.2)))

/-- Lines 552-555 / 562-565, one nonzero of `sparse_nwd` row `w`:
`p_wd = ⟨phi[w,:], theta[:,d]⟩`; skip when zero, else
`n_wt[w,:] += (n_wd/p_wd) • theta[:,d]`. -/
def nwtRowStep (phiRow : Vec) (theta : List Vec) (e : Nat × ℚ) (acc : Vec) : Vec :=
  if dot phiRow (theta.getD e.1 []) = 0 then acc
  else axpy (e.2 / dot phiRow (theta.getD e.1 [])) (theta.getD e.1 []) acc

/-- `CalculateNwtSparse` (processor.cc lines 512-572): returns the pair
`(n_wt, final Theta)`; the caller's `theta_matrix` is mutated in place, which
the second component models. -/
def CalculateNwtSparse (cfg : ModelConfig) (mask : Option (List Bool)) (reg : RegFun)
    (sparse_ndw : CsrMatrixQ) (phi : List Vec) (topics_count : Nat)
    (theta : List Vec) : List Vec × List Vec :=
  let theta1 := thetaLoopSparse reg cfg sparse_ndw phi topics_count theta
  let n_wt :=
    match mask with
    | some m =>
      (List.range phi.length).map (fun w =>
        ((csrColEntries sparse_ndw theta1.length w).filter
            (fun e => m.getD e.1 false)).foldl
          (fun acc e => nwtRowStep (phi.getD w []) theta1 e acc)
          (List.replicate topics_count 0))
    | none =>
      (List.range phi.length).map (fun w =>
        (csrColEntries sparse_ndw theta1.length w).foldl
          (fun acc e => nwtRowStep (phi.getD w []) theta1 e acc)
          (List.replicate topics_count 0))
  (hadamard n_wt phi, theta1)

/- ---------------------------------------------------------------------------
EM inner loop, dense BOW (processor.cc lines 574-650).
--------------------------------------------------------------------------- -/

/-- Modelled from the spec: BLAS `sgemm`, `Z ← phi · theta`;
`Z` is token-major (`tokens × docs`), `theta` a list of item columns. -/
def matMulPhiTheta (phi theta : List Vec) : List Vec :=
  phi.map (fun prow => theta.map (fun tcol => dot prow tcol))

/-- Modelled from the spec: BLAS `sgemm`, `phiᵀ · Z`, laid out as a list of
document columns of length `topics_count` (the shape of `Theta`). -/
def phiTransZcols (phi Z : List Vec) (topics_count docs_count : Nat) : List Vec :=
  (List.range docs_count).map (fun d =>
    (List.range topics_count).map (fun k =>
      ((List.range phi.length).map
        (fun w => (phi.getD w []).getD k 0 * (Z.getD w []).getD d 0)).sum))

/-- One dense inner iteration: `Z ← n_dw ⊘ (phi·theta)`,
`theta ← theta ⊙ (phiᵀ·Z)`, then regularize and normalize. -/
def denseInnerIter (reg : RegFun) (cfg : ModelConfig) (dense_ndw phi : List Vec)
    (topics_count inner_iter : Nat) (theta : List Vec) : List Vec :=
  RegularizeAndNormalizeTheta reg inner_iter cfg
    (hadamard theta
      (phiTransZcols phi (elemDivM dense_ndw (matMulPhiTheta phi theta))
        topics_count theta.length))

def thetaLoopDense (reg : RegFun) (cfg : ModelConfig) (dense_ndw phi : List Vec)
    (topics_count : Nat) (theta : List Vec) : List Vec :=
  (bowPassSchedule cfg).foldl
    (fun th it => denseInnerIter reg cfg dense_ndw phi topics_count it th) theta

/-- Column deletion by mask on a token-major matrix (lines 610-630). -/
def maskColsRows (m : List Bool) (A : List Vec) : List Vec :=
  A.map (fun r => ((r.zip m).filter (fun p => p.2)).map (fun p => p.1))

/-- Column deletion by mask on a column-list matrix (`masked_Theta`). -/
def maskColsList (m : List Bool) (cols : List Vec) : List Vec :=
  ((cols.zip m).filter (fun p => p.2)).map (fun p => p.1)

/-- Modelled from the spec: BLAS `sgemm`, `Z · thetaᵀ` (`tokens × topics`). -/
def zThetaT (Z thetaCols : List Vec) (topics_count : Nat) : List Vec :=
  Z.map (fun zrow => (List.range topics_count).map (fun k =>
    (List.zipWith (fun zd col => zd * col.getD k 0) zrow thetaCols).sum))

/-- `CalculateNwtDense` (processor.cc lines 574-650): the pair
`(n_wt, final Theta)`. -/
def CalculateNwtDense (cfg : ModelConfig) (mask : Option (List Bool)) (reg : RegFun)
    (dense_ndw phi : List Vec) (topics_count : Nat) (theta : List Vec) :
    List Vec × List Vec :=
  let theta1 := thetaLoopDense reg cfg dense_ndw phi topics_count theta
  let Z := elemDivM dense_ndw (matMulPhiTheta phi theta1)
  let n_wt :=
    match mask with
    | some m => hadamard (zThetaT (maskColsRows m Z) (maskColsList m theta1) topics_count) phi
    | none => hadamard (zThetaT Z theta1 topics_count) phi
  (n_wt, theta1)

/- ---------------------------------------------------------------------------
Transaction inner loop (processor_transaction_helpers.cc).
--------------------------------------------------------------------------- -/

/-- The global `PhiMatrix` interface used by the transaction processor
(`p_wt.get`, `p_wt.token_index`); `token_index` is `-1` for unknown tokens. -/
structure PhiMatrixT where
  topic_size : Nat
  get : Int → Nat → ℚ
  token_index : ClassId × String → Int

structure ProcessBatchesArgs where
  num_document_passes : Nat
  transaction_typename : List String
  transaction_weight : List ℚ

/-- `local_token_id_to_global_id` (lines 50-57). -/
def localTokenIdToGlobalId (batch : Batch) (p_wt : PhiMatrixT) : List Int :=
  (List.range batch.token.length).map (fun i => p_wt.token_index (batchToken batch i))

/-- `tt_name_to_weight` lookup (lines 59-66, 84-89): all weights `1` when the
config lists no typenames, else the listed weight with `0` for unlisted
typenames; `unordered_map::emplace` keeps the first occurrence. -/
def ttWeight (args : ProcessBatchesArgs) (tt_name : String) : ℚ :=
  if args.transaction_typename.length > 0 then
    match ((args.transaction_typename.zip args.transaction_weight).find?
        (fun p => p.1 == tt_name)).map (fun p => p.2) with
    | some w => w
    | none => 0
  else 1

/-- Modelled from the spec: `isZero(v, kTransactionsEps)` from the external
helpers, `|v| < 1e-100`. -/
def isZeroTx (v : ℚ) : Bool := decide (|v| < epsTx)

/-- `ComputePtdx` (lines 12-26): `init_value · ∏_{i ∈ [start,end)}
p_wt[global_id(token_id[i]), k]`. -/
def ComputePtdx (item : Item) (init_value : ℚ) (start_index end_index topic_id : Nat)
    (localToGlobal : List Int) (p_wt : PhiMatrixT) : ℚ :=
  (List.range' start_index (end_index - start_index)).foldl
    (fun acc i => acc * p_wt.get (localToGlobal.getD (item.token_id.getD i 0) (-1)) topic_id)
    init_value

/-- `helper_vector` for one transaction: `h_k = ComputePtdx(theta_k, …)`. -/
def txHelperVec (item : Item) (thetaCol : Vec) (t_index : Nat)
    (localToGlobal : List Int) (p_wt : PhiMatrixT) : Vec :=
  (List.range p_wt.topic_size).map (fun k =>
    ComputePtdx item (thetaCol.getD k 0) (item.transaction_start_index.getD t_index 0)
      (item.transaction_start_index.getD (t_index + 1) 0) k localToGlobal p_wt)

/-- The contribution of one transaction to `n_td[:,d]` (lines 79-105):
zero when `isZero(p_dx, 1e-100)`, else
`tt_weight · n_kdx · h_k / p_dx` per topic. -/
def txTransContrib (args : ProcessBatchesArgs) (batch : Batch) (item : Item)
    (thetaCol : Vec) (t_index : Nat) (localToGlobal : List Int) (p_wt : PhiMatrixT) : Vec :=
  let n_kdx := item.token_weight.getD (item.transaction_start_index.getD t_index 0) 0
  let tt_weight := ttWeight args
    (batch.transaction_typename.getD (item.transaction_typename_id.getD t_index 0) "")
  let h := txHelperVec item thetaCol t_index localToGlobal p_wt
  if isZeroTx h.sum then List.replicate p_wt.topic_size 0
  else (List.range p_wt.topic_size).map (fun k => tt_weight * n_kdx * h.getD k 0 / h.sum)

/-- Sequencing of per-topic division results: `none` as soon as any
division is invalid. -/
def optionMapM (f : Nat → Option ℚ) : List Nat → Option Vec
  | [] => some []
  | k :: rest =>
    match f k, optionMapM f rest with
    | some x, some xs => some (x :: xs)
    | _, _ => none

/-- Division-validity twin of `txTransContrib`. -/
def txTransContribChk (args : ProcessBatchesArgs) (batch : Batch) (item : Item)
    (thetaCol : Vec) (t_index : Nat) (localToGlobal : List Int) (p_wt : PhiMatrixT) :
    Option Vec :=
  let n_kdx := item.token_weight.getD (item.transaction_start_index.getD t_index 0) 0
  let tt_weight := ttWeight args
    (batch.transaction_typename.getD (item.transaction_typename_id.getD t_index 0) "")
  let h := txHelperVec item thetaCol t_index localToGlobal p_wt
  if isZeroTx h.sum then some (List.replicate p_wt.topic_size 0)
  else optionMapM (fun k => fdivChk (tt_weight * n_kdx * h.getD k 0) h.sum)
    (List.range p_wt.topic_size)

/-- One refinement pass over one document (lines 74-113): rebuild `n_td`
from all transactions, overwrite the Theta column with it, then apply the
regularization agents (abstracted as `reg`). -/
def txPass (args : ProcessBatchesArgs) (batch : Batch) (item : Item)
    (localToGlobal : List Int) (p_wt : PhiMatrixT) (reg : RegFun) (d inner_iter : Nat)
    (thetaCol : Vec) : Vec :=
  reg inner_iter d
    ((List.range (item.transaction_start_index.length - 1)).foldl
      (fun acc t => vecAdd acc (txTransContrib args batch item thetaCol t localToGlobal p_wt))
      (List.replicate p_wt.topic_size 0))

/-- The transaction loop header is
`for (inner_iter = 0; inner_iter <= num_document_passes; ++inner_iter)`. -/
def txPassSchedule (args : ProcessBatchesArgs) : List Nat :=
  List.range (args.num_document_passes + 1)

/-- The whole per-document refinement loop. -/
def txDocLoop (args : ProcessBatchesArgs) (batch : Batch) (item : Item)
    (localToGlobal : List Int) (p_wt : PhiMatrixT) (reg : RegFun) (d : Nat)
    (thetaCol : Vec) : Vec :=
  (txPassSchedule args).foldl
    (fun th it => txPass args batch item localToGlobal p_wt reg d it th) thetaCol

/-- The `n_wt` write phase for one transaction (lines 125-147): the per-topic
values `tt_weight · h_k · n_kdx · batch_weight / p_dx`, with **no** zero guard
on `p_dx`; `none` models the non-finite float of a zero divisor. -/
def txWriteValuesChk (args : ProcessBatchesArgs) (batch : Batch) (item : Item)
    (thetaCol : Vec) (t_index : Nat) (localToGlobal : List Int) (p_wt : PhiMatrixT)
    (batch_weight : ℚ) : Option Vec :=
  let n_kdx := item.token_weight.getD (item.transaction_start_index.getD t_index 0) 0
  let tt_weight := ttWeight args
    (batch.transaction_typename.getD (item.transaction_typename_id.getD t_index 0) "")
  let h := txHelperVec item thetaCol t_index localToGlobal p_wt
  optionMapM (fun k => fdivChk (tt_weight * h.getD k 0 * n_kdx * batch_weight) h.sum)
    (List.range p_wt.topic_size)

/- ---------------------------------------------------------------------------
Model increment and the worker's per-batch processing
(processor.cc lines 290-320, 722-948).
--------------------------------------------------------------------------- -/

inductive OpType
  | IncrementValue
  | CreateIfNotExist
deriving DecidableEq

inductive ProcErr
  | argumentOutOfRange
  | internal
deriving DecidableEq

structure ModelIncrement where
  model_name : String
  topics_count : Nat
  topic_name : List String
  batch_uuid : List String
  token : List String
  class_id : List ClassId
  operation_type : List OpType
  token_increment : List Vec

/-- `InitializeModelIncrement` (processor.cc lines 290-320): one row per batch
token; `IncrementValue` with `topics_count` zeros when the snapshot has the
token, else `CreateIfNotExist` with no values. -/
def InitializeModelIncrement (part : ProcessorInput) (cfg : ModelConfig)
    (tm : TopicModel) : ModelIncrement :=
  { model_name := cfg.name
    topics_count := cfg.topics_count
    topic_name := tm.topic_name
    batch_uuid := [part.batch_uuid]
    token := part.batch.token
    class_id := part.batch.class_id
    operation_type := (List.range part.batch.token.length).map (fun i =>
      if tm.has_token (batchToken part.batch i) then OpType.IncrementValue
      else OpType.CreateIfNotExist)
    token_increment := (List.range part.batch.token.length).map (fun i =>
      if tm.has_token (batchToken part.batch i) then List.replicate cfg.topics_count (0 : ℚ)
      else []) }

/-- One step of the post-EM copy loop (processor.cc lines 829-845): skip
zero-length rows, raise `Internal` when a nonempty row's length differs from
`topic_size`, copy the `n_wt` row into `IncrementValue` rows. -/
def fillStep (topic_size : Nat) (n_wt : List Vec) (acc : ModelIncrement)
    (token_index : Nat) : Except ProcErr ModelIncrement :=
  if (acc.token_increment.getD token_index []).length = 0 then Except.ok acc
  else if (acc.token_increment.getD token_index []).length ≠ topic_size then
    Except.error ProcErr.internal
  else if acc.operation_type.getD token_index OpType.CreateIfNotExist = OpType.IncrementValue then
    Except.ok { acc with token_increment := (acc.token_increment.set token_index
      ((List.range topic_size).map (fun k => (n_wt.getD token_index []).getD k 0))) }
  else Except.ok acc

/-- The post-EM copy loop, keeping the partially-updated increment on error
(the scope guard pushes it even while an exception unwinds). -/
def fillLoop (topic_size : Nat) (n_wt : List Vec) :
    List Nat → ModelIncrement → ModelIncrement × Option ProcErr
  | [], acc => (acc, none)
  | i :: rest, acc =>
    match fillStep topic_size n_wt acc i with
    | Except.ok acc2 => fillLoop topic_size n_wt rest acc2
    | Except.error e => (acc, some e)

def fillIncrementValues (inc : ModelIncrement) (n_wt : List Vec) (topic_size : Nat) :
    ModelIncrement × Option ProcErr :=
  fillLoop topic_size n_wt (List.range n_wt.length) inc

/-- `FindCacheEntry` (processor.cc lines 652-660). -/
def FindCacheEntry (part : ProcessorInput) (cfg : ModelConfig) :
    Option DataLoaderCacheEntry :=
  part.cached_theta.find?
    (fun c => c.batch_uuid == part.batch_uuid && c.model_name == cfg.name)

/-- The stream mask of the model: `part.stream_mask[index of cfg.stream_name]`
or none when the stream name is absent (processor.cc lines 816-818). -/
def streamMaskOf (part : ProcessorInput) (cfg : ModelConfig) : Option (List Bool) :=
  match part.stream_name.findIdx? (fun s => s == cfg.stream_name) with
  | some i => some (part.stream_mask.getD i [])
  | none => none

/-- One model of the worker's per-batch lambda (processor.cc lines 777-928,
scores and theta-cache export omitted — they are external-collaborator
output that does not alter the increment's token rows).  Returns the
increment pushed by the scope guard (if any) and the fatal error (if any). -/
def processModelStep (merger : String → TopicModel) (reg : RegFun) (rand : RandFun)
    (part : ProcessorInput) (cfg : ModelConfig) :
    Option ModelIncrement × Option ProcErr :=
  if ¬ cfg.enabled then (none, none)
  else if cfg.class_id.length ≠ cfg.class_weight.length then
    (none, some ProcErr.internal)
  else if (merger cfg.name).topic_size ≠ cfg.topics_count then
    (none, some ProcErr.internal)
  else
    let tm := merger cfg.name
    let inc := InitializeModelIncrement part cfg tm
    match InitializePhi part.batch cfg tm with
    | none => (some inc, none)
    | some phi =>
      let theta0 := InitializeTheta part.batch cfg (FindCacheEntry part cfg) rand
      let mask := streamMaskOf part cfg
      let res :=
        if cfg.use_sparse_bow then
          CalculateNwtSparse cfg mask reg (InitializeSparseNdw part.batch cfg) phi
            tm.topic_size theta0
        else
          CalculateNwtDense cfg mask reg (InitializeDenseNdw part.batch) phi
            tm.topic_size theta0
      match fillIncrementValues inc res.1 tm.topic_size with
      | (inc2, none) => (some inc2, none)
      | (inc2, some e) => (some inc2, some e)

/-- The worker's iteration over the schema's models: accumulates the pushed
increments in order and stops at the first fatal error (the worker rethrows
and terminates). -/
def processBatchModels (merger : String → TopicModel) (reg : RegFun) (rand : RandFun)
    (part : ProcessorInput) : List ModelConfig → List ModelIncrement × Option ProcErr
  | [] => ([], none)
  | cfg :: rest =>
    match processModelStep merger reg rand part cfg with
    | (inc, some e) => (inc.toList, some e)
    | (inc, none) =>
      let r := processBatchModels merger reg rand part rest
      (inc.toList ++ r.1, r.2)

/-- One batch of `Processor::ThreadFunction` (lines 765-928): the
`class_id_size == token_size` validation, then the per-model loop. -/
def processBatch (merger : String → TopicModel) (reg : RegFun) (rand : RandFun)
    (part : ProcessorInput) (cfgs : List ModelConfig) :
    List ModelIncrement × Option ProcErr :=
  if part.batch.class_id.length ≠ part.batch.token.length then
    ([], some ProcErr.internal)
  else processBatchModels merger reg rand part cfgs

/-- `Processor::FindThetaMatrix` (processor.cc lines 662-720): the same
preparation and EM loop with no stream mask and no theta cache; `none` in
the result models the empty-Phi early return that leaves `result`
unpopulated. -/
def FindThetaMatrix (merger : String → Option TopicModel)
    (getCfg : String → ModelConfig) (reg : RegFun) (rand : RandFun)
    (batch : Batch) (model_name : String) : Except ProcErr (Option (List Vec)) :=
  match merger model_name with
  | none => Except.error ProcErr.argumentOutOfRange
  | some tm =>
    let cfg := getCfg model_name
    if cfg.class_id.length ≠ cfg.class_weight.length then Except.error ProcErr.internal
    else if tm.topic_size ≠ cfg.topics_count then Except.error ProcErr.internal
    else
      let theta0 := InitializeTheta batch cfg none rand
      match InitializePhi batch cfg tm with
      | none => Except.ok none
      | some phi =>
        if cfg.use_sparse_bow then
          Except.ok (some (CalculateNwtSparse cfg none reg
            (InitializeSparseNdw batch cfg) phi tm.topic_size theta0).2)
        else
          Except.ok (some (CalculateNwtDense cfg none reg
            (InitializeDenseNdw batch) phi tm.topic_size theta0).2)

/- ---------------------------------------------------------------------------
Stream iterator (processor.cc lines 234-288).
--------------------------------------------------------------------------- -/

/-- `Processor::StreamIterator`: cursor state over a `ProcessorInput`;
`item_index` starts at `-1`. -/
structure StreamIterState where
  input : ProcessorInput
  item_index : Int
  stream_flags : Option (List Bool)

def StreamIterState.itemsCount (st : StreamIterState) : Int :=
  st.input.batch.item.length

/-- `Next` (lines 241-257): the first index past the cursor whose stream flag
is set (or any index when no flags), else `items_count`. -/
def StreamIterState.nextState (st : StreamIterState) : StreamIterState :=
  { st with item_index :=
      match ((List.range st.input.batch.item.length).filter
          (fun (j : Nat) => st.item_index < (j : Int) &&
            (match st.stream_flags with
             | none => true
             | some f => f.getD j false))).head? with
      | some j => (j : Int)
      | none => st.input.batch.item.length }

/-- `Current` (lines 259-264): null once the cursor reached the end. -/
def StreamIterState.current (st : StreamIterState) : Option Item :=
  if st.item_index ≥ st.itemsCount then none
  else st.input.batch.item.get? st.item_index.toNat

/-- `InStream(name)` (lines 266-276): false past the end; true when the
named stream is absent; else the named mask's bit at the cursor. -/
def StreamIterState.inStreamName (st : StreamIterState) (stream_name : String) : Bool :=
  if st.item_index ≥ st.itemsCount then false
  else
    match st.input.stream_name.findIdx? (fun s => s == stream_name) with
    | none => true
    | some i => (st.input.stream_mask.getD i []).getD st.item_index.toNat false

/- ---------------------------------------------------------------------------
Further division-validity twins and claim-side (spec-worded) definitions.
--------------------------------------------------------------------------- -/

/-- Division-validity twin of the `ApplyByElement<1>` body. -/
def elemDivChk (a b : ℚ) : Option ℚ := if a = 0 ∨ b = 0 then some 0 else fdivChk a b

/-- Division-validity twin of `nwtRowStep`. -/
def nwtRowStepChk (phiRow : Vec) (theta : List Vec) (e : Nat × ℚ) (acc : Vec) : Option Vec :=
  if dot phiRow (theta.getD e.1 []) = 0 then some acc
  else (fdivChk e.2 (dot phiRow (theta.getD e.1 []))).map
    (fun c => axpy c (theta.getD e.1 []) acc)

/-- The class-weight rule in the spec's wording (`1` for every class when the
config enumerates no classes, the configured weight of the listed class,
`0` for an unlisted class); compared against `tokenClassWeight` in C4. -/
def claimClassWeight (cfg : ModelConfig) (batch : Batch) (token_id : Nat) : ℚ :=
  if cfg.class_id.length = 0 then 1
  else if (batch.class_id.getD token_id "") ∈ cfg.class_id then
    cfg.class_weight.getD (cfg.class_id.indexOf (batch.class_id.getD token_id "")) 0
  else 0

/-- Element read of a row-major matrix, with `0` out of range. -/
def getEntry (m : List Vec) (r c : Nat) : ℚ := (m.getD r []).getD c 0

/-- Shape predicate for a row-major matrix: `rows × cols`. -/
def MatShape (m : List Vec) (rows cols : Nat) : Prop :=
  m.length = rows ∧ ∀ i < rows, (m.getD i []).length = cols

/- ---------------------------------------------------------------------------
Concrete instances used by witnesses and counterexamples.
--------------------------------------------------------------------------- -/

/-- A one-transaction item: one token occurrence, weight 1. -/
def itemTx : Item :=
  { id := 0, field := [], token_id := [0], token_weight := [1]
    transaction_start_index := [0, 1], transaction_typename_id := [0] }

def batchTx : Batch := ⟨[itemTx], ["w"], ["c"], ["tt"]⟩

/-- A transaction Phi whose every weight is zero, so `p_dx = 0`. -/
def pwtZero : PhiMatrixT := ⟨1, fun _ _ => 0, fun _ => 0⟩

def argsTx : ProcessBatchesArgs := ⟨2, [], []⟩

/-- A batch with one item holding one occurrence of token 0. -/
def batchW : Batch := ⟨[{ emptyItem with field := [⟨[0], [1]⟩] }], ["w"], ["c"], []⟩

/-- A config weighting class `"c"` by 2. -/
def cfgW : ModelConfig :=
  { name := "m", topics_count := 1, topic_name := ["t"], enabled := true
    inner_iterations_count := 1, use_sparse_bow := true, reuse_theta := false
    use_random_theta := false, stream_name := "", class_id := ["c"]
    class_weight := [2], score_name := [] }

/-- An enabled config with no class list, one topic. -/
def cfgE : ModelConfig :=
  { name := "m", topics_count := 1, topic_name := ["t"], enabled := true
    inner_iterations_count := 1, use_sparse_bow := true, reuse_theta := false
    use_random_theta := false, stream_name := "", class_id := []
    class_weight := [], score_name := [] }

/-- An empty batch inside a `ProcessorInput`. -/
def partE : ProcessorInput := ⟨⟨[], [], [], []⟩, "u", [], [], []⟩

/-- A topic model snapshot with one topic and no tokens. -/
def tmE : TopicModel := ⟨1, ["t"], fun _ => none⟩

def mergerE : String → TopicModel := fun _ => tmE

def regId : RegFun := fun _ _ v => v

def randZero : RandFun := fun _ _ => 0

/-- An iterator state whose cursor is past the end (empty batch). -/
def stEnd : StreamIterState := ⟨partE, 0, none⟩

/-- An iterator state on a valid item, with no streams in the input. -/
def stOn : StreamIterState := ⟨⟨⟨[emptyItem], [], [], []⟩, "u", [], [], []⟩, 0, none⟩

/-- A two-token batch (no items needed) for increment-shape witnesses. -/
def batch2 : Batch := ⟨[], ["w", "v"], ["c", "c"], []⟩

def part2 : ProcessorInput := ⟨batch2, "u", [], [], []⟩

/-- A snapshot that knows only the token `("c", "w")`. -/
def tmW : TopicModel :=
  ⟨1, ["t"], fun tok => if tok.1 == "c" && tok.2 == "w" then some [1] else none⟩

/-- An increment with a malformed (length-2) row, for the post-EM check. -/
def incBad : ModelIncrement :=
  ⟨"m", 1, ["t"], ["u"], ["w"], ["c"], [OpType.IncrementValue], [[0, 0]]⟩

/-- A config whose `class_id` / `class_weight` lengths disagree. -/
def cfgBad : ModelConfig :=
  { name := "m", topics_count := 1, topic_name := ["t"], enabled := true
    inner_iterations_count := 1, use_sparse_bow := true, reuse_theta := false
    use_random_theta := false, stream_name := "", class_id := ["c"]
    class_weight := [], score_name := [] }

/- ---------------------------------------------------------------------------
Helper lemmas.
--------------------------------------------------------------------------- -/

lemma optionMapM_some_eq (f : Nat → ℚ) (l : List Nat) :
    optionMapM (fun k => some (f k)) l = some (l.map f) := by
  induction l with
  | nil => rfl
  | cons a l ih => simp [optionMapM, ih]

lemma optionMapM_fdivChk_ne (g : Nat → ℚ) (p : ℚ) (hp : p ≠ 0) (l : List Nat) :
    optionMapM (fun k => fdivChk (g k) p) l = some (l.map (fun k => g k / p)) := by
  induction l with
  | nil => rfl
  | cons a l ih => simp [optionMapM, fdivChk, hp, optionMapM_some_eq]

lemma optionMapM_fdivChk_eq_none (g : Nat → ℚ) (p : ℚ) (n : Nat) :
    (optionMapM (fun k => fdivChk (g k) p) (List.range n) = none) ↔ (p = 0 ∧ n ≠ 0) := by
  rcases eq_or_ne p 0 with hp | hp
  · subst hp
    cases n with
    | zero => simp [optionMapM]
    | succ m => simp [List.range_succ_eq_map, optionMapM, fdivChk]
  · rw [optionMapM_fdivChk_ne g p hp]
    simp [hp]

/- ---------------------------------------------------------------------------
C6.
--------------------------------------------------------------------------- -/

/-- C6: for fixed config, n_dw, Phi and initial Theta, the Theta produced by
the inner-iteration loop does not depend on the stream mask — the mask only
influences the `n_wt` accumulation (two-run noninterference, sparse and
dense variants). -/
theorem c6_mask_noninterference_on_theta (cfg : ModelConfig) (reg : RegFun)
    (sparse_ndw : CsrMatrixQ) (dense_ndw phi : List Vec) (topics_count : Nat)
    (theta : List Vec) (mask1 mask2 : Option (List Bool)) :
    (CalculateNwtSparse cfg mask1 reg sparse_ndw phi topics_count theta).2 =
      (CalculateNwtSparse cfg mask2 reg sparse_ndw phi topics_count theta).2 ∧
    (CalculateNwtDense cfg mask1 reg dense_ndw phi topics_count theta).2 =
      (CalculateNwtDense cfg mask2 reg dense_ndw phi topics_count theta).2 :=
  ⟨rfl, rfl⟩

/- ---------------------------------------------------------------------------
C10.
--------------------------------------------------------------------------- -/

/-- C10: once the cursor is past the last item, `Current` is null and
`InStream(name)` is false for every name; while the cursor is on a valid
item, `InStream` is true for names absent from the `ProcessorInput`. -/
theorem c10_stream_iterator (st : StreamIterState) :
    (st.itemsCount ≤ st.item_index →
      st.current = none ∧ ∀ name : String, st.inStreamName name = false) ∧
    (st.item_index < st.itemsCount →
      ∀ name : String, name ∉ st.input.stream_name → st.inStreamName name = true) := by
  constructor
  · intro h
    refine ⟨?_, fun name => ?_⟩
    · simp [StreamIterState.current, ge_iff_le, h]
    · simp [StreamIterState.inStreamName, ge_iff_le, h]
  · intro h name hname
    have hidx : st.input.stream_name.findIdx? (fun s => s == name) = none := by
      rw [List.findIdx?_eq_none_iff]
      intro x hx
      simp only [beq_eq_false_iff_ne]
      exact fun hxe => hname (hxe ▸ hx)
    simp [StreamIterState.inStreamName, ge_iff_le, not_le.mpr h, hidx]

/-- Witness for C10 at concrete iterator states. -/
theorem c10_witness :
    stEnd.current = none ∧ stEnd.inStreamName "train" = false ∧
      stOn.inStreamName "train" = true :=
  ⟨((c10_stream_iterator stEnd).1 (by decide)).1,
   ((c10_stream_iterator stEnd).1 (by decide)).2 "train",
   (c10_stream_iterator stOn).2 (by decide) "train" (by simp [stOn])⟩

/- ---------------------------------------------------------------------------
C2.
--------------------------------------------------------------------------- -/

/-- C2 counterexample: in the transaction `n_wt` write phase
(processor_transaction_helpers.cc lines 137-152) the division by `p_dx` has
no zero guard; at this concrete input every `p_wt` weight is zero, so
`p_dx = 0` and the computation produces a non-finite float (`none`),
refuting "the computation never produces NaN or infinity from a zero
denominator". -/
theorem c2_counterexample :
    txWriteValuesChk argsTx batchTx itemTx [1] 0 [0] pwtZero 1 = none := by
  simp [txWriteValuesChk, txHelperVec, ComputePtdx, argsTx, batchTx, itemTx,
    pwtZero, ttWeight, fdivChk, optionMapM, List.range_succ, List.range']

/-- C2 amended: every division site of the BOW EM updates (sparse `p_dw`,
`n_wt` accumulation `p_wd`, dense elementwise `Z` entries) and the
transaction theta-refinement (`p_dx` under the `1e-100` guard) is guarded —
a zero divisor yields a zero (skipped) contribution and never a non-finite
value; the transaction `n_wt` write phase alone divides unguarded and
produces a non-finite value exactly when `p_dx = 0` (and the topic count is
nonzero). -/
theorem c2_division_guards :
    (∀ (phiRow thetaCol acc : Vec) (v : ℚ),
      sparseNtdStepChk phiRow thetaCol v acc = some (sparseNtdStep phiRow thetaCol v acc) ∧
      (dot phiRow thetaCol = 0 → sparseNtdStep phiRow thetaCol v acc = acc)) ∧
    (∀ (phiRow : Vec) (theta : List Vec) (e : Nat × ℚ) (acc : Vec),
      nwtRowStepChk phiRow theta e acc = some (nwtRowStep phiRow theta e acc) ∧
      (dot phiRow (theta.getD e.1 []) = 0 → nwtRowStep phiRow theta e acc = acc)) ∧
    (∀ a b : ℚ, elemDivChk a b = some (elemDiv a b) ∧ (b = 0 → elemDiv a b = 0)) ∧
    (∀ args batch item (thetaCol : Vec) (t : Nat) (lg : List Int) (p_wt : PhiMatrixT),
      txTransContribChk args batch item thetaCol t lg p_wt =
        some (txTransContrib args batch item thetaCol t lg p_wt)) ∧
    (∀ args batch item (thetaCol : Vec) (t : Nat) (lg : List Int) (p_wt : PhiMatrixT)
        (bw : ℚ),
      txWriteValuesChk args batch item thetaCol t lg p_wt bw = none ↔
        ((txHelperVec item thetaCol t lg p_wt).sum = 0 ∧ p_wt.topic_size ≠ 0)) := by
  refine ⟨?_, ?_, ?_, ?_, ?_⟩
  · intro phiRow thetaCol acc v
    rcases eq_or_ne (dot phiRow thetaCol) 0 with h | h
    · exact ⟨by simp [sparseNtdStepChk, sparseNtdStep, h], fun _ => by simp [sparseNtdStep, h]⟩
    · exact ⟨by simp [sparseNtdStepChk, sparseNtdStep, h, fdivChk], fun hc => absurd hc h⟩
  · intro phiRow theta e acc
    rcases eq_or_ne (dot phiRow (theta.getD e.1 [])) 0 with h | h
    · refine ⟨?_, fun _ => ?_⟩
      · unfold nwtRowStepChk nwtRowStep
        rw [if_pos h, if_pos h]
      · unfold nwtRowStep
        rw [if_pos h]
    · refine ⟨?_, fun hc => absurd hc h⟩
      unfold nwtRowStepChk nwtRowStep fdivChk
      rw [if_neg h, if_neg h, if_neg h]
      rfl
  · intro a b
    refine ⟨?_, fun hb => by subst hb; simp [elemDiv]⟩
    rcases eq_or_ne a 0 with ha | ha
    · simp [elemDivChk, elemDiv, ha]
    · rcases eq_or_ne b 0 with hb | hb
      · simp [elemDivChk, elemDiv, ha, hb]
      · simp [elemDivChk, elemDiv, fdivChk, ha, hb]
  · intro args batch item thetaCol t lg p_wt
    by_cases hz : isZeroTx (txHelperVec item thetaCol t lg p_wt).sum
    · simp [txTransContribChk, txTransContrib, hz]
    · have hp : (txHelperVec item thetaCol t lg p_wt).sum ≠ 0 := by
        intro h0
        refine hz ?_
        simp [isZeroTx, h0, epsTx]
      unfold txTransContribChk txTransContrib
      rw [if_neg (by simpa using hz), if_neg (by simpa using hz),
        optionMapM_fdivChk_ne _ _ hp]
  · intro args batch item thetaCol t lg p_wt bw
    exact optionMapM_fdivChk_eq_none _ _ _

/-- Witness for C2 (amended theorem) at concrete inputs. -/
theorem c2_witness :
    sparseNtdStep [1] [0] 1 [0] = [0] ∧
    elemDiv 1 0 = 0 ∧
    txWriteValuesChk argsTx batchTx itemTx [1] 0 [0] pwtZero 1 = none := by
  refine ⟨(c2_division_guards.1 [1] [0] [0] 1).2 (by simp [dot]),
    (c2_division_guards.2.2.1 1 0).2 rfl, ?_⟩
  refine (c2_division_guards.2.2.2.2 argsTx batchTx itemTx [1] 0 [0] pwtZero 1).mpr
    ⟨?_, by decide⟩
  simp [txHelperVec, ComputePtdx, itemTx, pwtZero, List.range_succ, List.range']

/- ---------------------------------------------------------------------------
C7.
--------------------------------------------------------------------------- -/

lemma getD_map_range {α : Type _} (f : Nat → α) (n i : Nat) (d : α) (hi : i < n) :
    ((List.range n).map f).getD i d = f i := by
  rw [List.getD_eq_getElem _ _ (by simpa using hi)]
  simp

/-- C7: in every fresh model increment, a token the snapshot has gets an
`IncrementValue` row of exactly `topics_count` zeros, a token it lacks gets a
`CreateIfNotExist` row of length 0; and the post-EM copy loop raises a fatal
`Internal` error on any nonempty row of a different length. -/
theorem c7_increment_rows (part : ProcessorInput) (cfg : ModelConfig) (tm : TopicModel)
    (i : Nat) (hi : i < part.batch.token.length) :
    (tm.has_token (batchToken part.batch i) = true →
      (InitializeModelIncrement part cfg tm).operation_type.getD i OpType.CreateIfNotExist =
        OpType.IncrementValue ∧
      ((InitializeModelIncrement part cfg tm).token_increment.getD i []).length =
        cfg.topics_count) ∧
    (tm.has_token (batchToken part.batch i) = false →
      (InitializeModelIncrement part cfg tm).operation_type.getD i OpType.CreateIfNotExist =
        OpType.CreateIfNotExist ∧
      ((InitializeModelIncrement part cfg tm).token_increment.getD i []).length = 0) ∧
    (∀ (topic_size : Nat) (n_wt : List Vec) (acc : ModelIncrement) (t : Nat),
      (acc.token_increment.getD t []).length ≠ 0 →
      (acc.token_increment.getD t []).length ≠ topic_size →
      fillStep topic_size n_wt acc t = Except.error ProcErr.internal) := by
  have hop : (InitializeModelIncrement part cfg tm).operation_type =
      (List.range part.batch.token.length).map (fun j =>
        if tm.has_token (batchToken part.batch j) then OpType.IncrementValue
        else OpType.CreateIfNotExist) := rfl
  have hinc : (InitializeModelIncrement part cfg tm).token_increment =
      (List.range part.batch.token.length).map (fun j =>
        if tm.has_token (batchToken part.batch j) then
          List.replicate cfg.topics_count (0 : ℚ)
        else []) := rfl
  refine ⟨fun h => ?_, fun h => ?_, fun topic_size n_wt acc t h1 h2 => ?_⟩
  · constructor
    · rw [hop, getD_map_range _ _ _ _ hi, if_pos h]
    · rw [hinc, getD_map_range _ _ _ _ hi, if_pos h, List.length_replicate]
  · constructor
    · rw [hop, getD_map_range _ _ _ _ hi, if_neg (by simp [h])]
    · rw [hinc, getD_map_range _ _ _ _ hi, if_neg (by simp [h]), List.length_nil]
  · unfold fillStep
    rw [if_neg h1, if_pos h2]

/-- Witness for C7 at a concrete increment. -/
theorem c7_witness :
    ((InitializeModelIncrement part2 cfgE tmW).operation_type.getD 0 OpType.CreateIfNotExist =
      OpType.IncrementValue) ∧
    ((InitializeModelIncrement part2 cfgE tmW).token_increment.getD 1 []).length = 0 ∧
    fillStep 3 [] incBad 0 = Except.error ProcErr.internal :=
  ⟨((c7_increment_rows part2 cfgE tmW 0 (by decide)).1
      (by simp [tmW, part2, batch2, batchToken, TopicModel.has_token])).1,
   ((c7_increment_rows part2 cfgE tmW 1 (by decide)).2.1
      (by simp [tmW, part2, batch2, batchToken, TopicModel.has_token])).2,
   (c7_increment_rows part2 cfgE tmW 0 (by decide)).2.2 3 [] incBad 0
      (by simp [incBad]) (by simp [incBad])⟩

/- ---------------------------------------------------------------------------
C9.
--------------------------------------------------------------------------- -/

lemma vecAdd_zero_right (acc : Vec) : vecAdd acc (List.replicate acc.length 0) = acc := by
  induction acc with
  | nil => rfl
  | cons a l ih => simpa [vecAdd, List.replicate_succ] using ih

/-- C9: the transaction loop performs exactly `num_document_passes + 1`
refinement passes per document, one more than the BOW loops'
`inner_iterations_count`; and within a pass a transaction whose `p_dx` has
absolute value below `1e-100` contributes nothing to `n_td`. -/
theorem c9_transaction_inner_loop (args : ProcessBatchesArgs) (cfg : ModelConfig)
    (batch : Batch) (item : Item) (lg : List Int) (p_wt : PhiMatrixT)
    (thetaCol acc : Vec) (t : Nat) (hacc : acc.length = p_wt.topic_size)
    (hz : |(txHelperVec item thetaCol t lg p_wt).sum| < epsTx) :
    (txPassSchedule args).length = args.num_document_passes + 1 ∧
    (bowPassSchedule cfg).length = cfg.inner_iterations_count ∧
    txTransContrib args batch item thetaCol t lg p_wt =
      List.replicate p_wt.topic_size 0 ∧
    vecAdd acc (txTransContrib args batch item thetaCol t lg p_wt) = acc := by
  have hzb : isZeroTx (txHelperVec item thetaCol t lg p_wt).sum = true := by
    simp [isZeroTx, hz]
  have hc : txTransContrib args batch item thetaCol t lg p_wt =
      List.replicate p_wt.topic_size 0 := by
    unfold txTransContrib
    rw [if_pos hzb]
  refine ⟨by simp [txPassSchedule], by simp [bowPassSchedule], hc, ?_⟩
  rw [hc, ← hacc, vecAdd_zero_right]

/-- Witness for C9 at a concrete transaction whose `p_dx` is zero. -/
theorem c9_witness :
    (txPassSchedule argsTx).length = argsTx.num_document_passes + 1 ∧
    txTransContrib argsTx batchTx itemTx [1] 0 [0] pwtZero =
      List.replicate pwtZero.topic_size 0 ∧
    vecAdd [5] (txTransContrib argsTx batchTx itemTx [1] 0 [0] pwtZero) = [5] := by
  have h := c9_transaction_inner_loop argsTx cfgE batchTx itemTx [0] pwtZero [1] [5] 0
    (by simp [pwtZero]) (by
      have hs : (txHelperVec itemTx [1] 0 [0] pwtZero).sum = 0 := by
        simp [txHelperVec, ComputePtdx, itemTx, pwtZero, List.range_succ, List.range']
      rw [hs]
      norm_num [epsTx])
  exact ⟨h.1, h.2.2.1, h.2.2.2⟩

/- ---------------------------------------------------------------------------
C1.
--------------------------------------------------------------------------- -/

lemma eps16_pos : (0 : ℚ) < eps16 := by norm_num [eps16]

lemma clipNeg_getD_nonneg (v : Vec) (k : Nat) : 0 ≤ (clipNeg v).getD k 0 := by
  rcases lt_or_ge k v.length with h | h
  · rw [clipNeg, List.getD_eq_getElem _ _ (by simpa using h), List.getElem_map]
    split
    · exact le_refl 0
    · next hlt => exact le_of_not_lt hlt
  · rw [clipNeg, List.getD_eq_getElem?_getD, List.getElem?_eq_none (by simpa using h)]
    exact le_refl 0

lemma preNormSum_nonneg (ts : Nat) (v : Vec) : 0 ≤ preNormSum ts v := by
  refine List.sum_nonneg ?_
  intro x hx
  obtain ⟨k, -, rfl⟩ := List.mem_map.mp hx
  exact clipNeg_getD_nonneg v k

lemma snap16_nonneg {x : ℚ} (hx : 0 ≤ x) : 0 ≤ snap16 x := by
  unfold snap16
  split
  · exact le_refl 0
  · exact hx

lemma snap16_le {x : ℚ} (hx : 0 ≤ x) : snap16 x ≤ x := by
  unfold snap16
  split
  · exact hx
  · exact le_refl x

lemma snap16_ge (x : ℚ) : x - eps16 ≤ snap16 x := by
  unfold snap16
  split
  · next h => linarith
  · linarith [eps16_pos]

lemma snap16_lt_eps (x : ℚ) : snap16 x < eps16 → snap16 x = 0 := by
  unfold snap16
  split
  · intro _; rfl
  · next h => intro hx; exact absurd hx h

lemma snap16_zero : snap16 0 = 0 := by
  unfold snap16
  rw [if_pos eps16_pos]

lemma sum_map_snap16_le (l : List ℚ) (h : ∀ x ∈ l, 0 ≤ x) :
    (l.map snap16).sum ≤ l.sum := by
  induction l with
  | nil => simp
  | cons a l ih =>
    simp only [List.map_cons, List.sum_cons]
    have h1 := snap16_le (h a (List.mem_cons_self a l))
    have h2 := ih (fun x hx => h x (List.mem_cons_of_mem a hx))
    linarith

lemma sum_map_snap16_ge (l : List ℚ) :
    l.sum - (l.length : ℚ) * eps16 ≤ (l.map snap16).sum := by
  induction l with
  | nil => simp
  | cons a l ih =>
    simp only [List.map_cons, List.sum_cons, List.length_cons]
    push_cast
    have h1 := snap16_ge a
    linarith

lemma list_sum_div (l : List ℚ) (c : ℚ) : (l.map (fun x => x / c)).sum = l.sum / c := by
  simp only [div_eq_mul_inv]
  rw [List.sum_map_mul_right]
  simp

/-- C1: after every inner iteration's regularize-and-normalize step, every
item column of `Theta` has only nonnegative entries, every entry below
`1e-16` is exactly `0`, the column is entirely `0` when the pre-division sum
was not positive, and otherwise (with at most `10^9` topics) it sums to `1`
within `1e-6`. -/
theorem c1_theta_normalization (reg : RegFun) (inner_iter : Nat) (cfg : ModelConfig)
    (theta : List Vec) (d : Nat) (hd : d < theta.length)
    (htop : cfg.topics_count ≤ 10 ^ 9) :
    (∀ x ∈ (RegularizeAndNormalizeTheta reg inner_iter cfg theta).getD d [], 0 ≤ x) ∧
    (∀ x ∈ (RegularizeAndNormalizeTheta reg inner_iter cfg theta).getD d [],
      x < eps16 → x = 0) ∧
    (preNormSum cfg.topics_count (reg inner_iter d (theta.getD d [])) ≤ 0 →
      ∀ x ∈ (RegularizeAndNormalizeTheta reg inner_iter cfg theta).getD d [], x = 0) ∧
    (0 < preNormSum cfg.topics_count (reg inner_iter d (theta.getD d [])) →
      |((RegularizeAndNormalizeTheta reg inner_iter cfg theta).getD d []).sum - 1| <
        1 / 10 ^ 6) := by
  have hcol : (RegularizeAndNormalizeTheta reg inner_iter cfg theta).getD d [] =
      normCol cfg.topics_count (reg inner_iter d (theta.getD d [])) := by
    unfold RegularizeAndNormalizeTheta
    rw [List.getD_eq_getElem _ _ (by simpa [List.length_mapIdx] using hd),
      List.getElem_mapIdx]
    congr 2
    exact (List.getD_eq_getElem theta [] hd).symm
  set v := reg inner_iter d (theta.getD d []) with hv
  set ts := cfg.topics_count with hts
  rw [hcol]
  refine ⟨?_, ?_, ?_, ?_⟩
  · intro x hx
    obtain ⟨k, -, rfl⟩ := List.mem_map.mp hx
    refine snap16_nonneg ?_
    split
    · next hs => exact div_nonneg (clipNeg_getD_nonneg v k) (le_of_lt hs)
    · exact le_refl 0
  · intro x hx
    obtain ⟨k, -, rfl⟩ := List.mem_map.mp hx
    exact snap16_lt_eps _
  · intro hle x hx
    obtain ⟨k, -, rfl⟩ := List.mem_map.mp hx
    rw [if_neg (not_lt.mpr hle), snap16_zero]
  · intro hs
    unfold normCol
    simp only [hs, if_true]
    rw [show (fun k => snap16 ((clipNeg v).getD k 0 / preNormSum ts v)) =
        (snap16 ∘ fun k => (clipNeg v).getD k 0 / preNormSum ts v) from rfl,
      ← List.map_map]
    set L := (List.range ts).map (fun k => (clipNeg v).getD k 0 / preNormSum ts v)
      with hL
    have hLsum : L.sum = 1 := by
      rw [hL, show (fun k => (clipNeg v).getD k 0 / preNormSum ts v) =
          ((fun x => x / preNormSum ts v) ∘ fun k => (clipNeg v).getD k 0) from rfl,
        ← List.map_map, list_sum_div]
      exact div_self (ne_of_gt hs)
    have hLnn : ∀ x ∈ L, 0 ≤ x := by
      intro x hx
      obtain ⟨k, -, rfl⟩ := List.mem_map.mp hx
      exact div_nonneg (clipNeg_getD_nonneg v k) (le_of_lt hs)
    have hLlen : (L.length : ℚ) = (ts : ℚ) := by
      rw [hL]
      simp
    have hub := sum_map_snap16_le L hLnn
    have hlb := sum_map_snap16_ge L
    rw [hLsum] at hub hlb
    rw [hLlen] at hlb
    have hcast : (ts : ℚ) ≤ 10 ^ 9 := by exact_mod_cast htop
    have hmul : (ts : ℚ) * eps16 ≤ 10 ^ 9 * eps16 :=
      mul_le_mul_of_nonneg_right hcast (le_of_lt eps16_pos)
    have hsmall : (10 : ℚ) ^ 9 * eps16 < 1 / 10 ^ 6 := by norm_num [eps16]
    rw [abs_lt]
    constructor <;> linarith

/-- Witness for C1 at a concrete one-topic column. -/
theorem c1_witness :
    (∀ x ∈ (RegularizeAndNormalizeTheta regId 0 cfgE [[1]]).getD 0 [], 0 ≤ x) ∧
    |((RegularizeAndNormalizeTheta regId 0 cfgE [[1]]).getD 0 []).sum - 1| < 1 / 10 ^ 6 :=
  ⟨(c1_theta_normalization regId 0 cfgE [[1]] 0 (by decide) (by norm_num [cfgE])).1,
   (c1_theta_normalization regId 0 cfgE [[1]] 0 (by decide) (by norm_num [cfgE])).2.2.2
     (by norm_num [preNormSum, clipNeg, regId, cfgE, List.range_succ])⟩

/- ---------------------------------------------------------------------------
C4.
--------------------------------------------------------------------------- -/

lemma flatten_take_sub {α : Type _} (L : List (List α)) (d : Nat) (hd : d < L.length) :
    ((L.take (d + 1)).flatten).length - ((L.take d).flatten).length = L[d].length := by
  rw [List.take_succ, List.getElem?_eq_getElem hd]
  simp only [Option.toList_some, List.flatten_append, List.length_append,
    List.flatten_cons, List.flatten_nil, List.append_nil]
  omega

lemma flatten_slice {α : Type _} (L : List (List α)) (d : Nat) (hd : d < L.length) :
    ((L.flatten.drop (((L.take d).flatten).length)).take L[d].length) = L[d] := by
  have h1 : L.flatten = (L.take d).flatten ++ (L.drop d).flatten := by
    rw [← List.flatten_append, List.take_append_drop]
  rw [h1, List.drop_left, List.drop_eq_getElem_cons hd, List.flatten_cons, List.take_left]

lemma csrRowEntries_sparse (batch : Batch) (cfg : ModelConfig) (d : Nat)
    (hd : d < batch.item.length) :
    csrRowEntries (InitializeSparseNdw batch cfg) d =
      itemEntries cfg batch (batch.item.getD d emptyItem) := by
  have hdr : d < (batch.item.map (itemEntries cfg batch)).length := by simpa using hd
  have hcol : (InitializeSparseNdw batch cfg).col_ind =
      (batch.item.map (itemEntries cfg batch)).flatten.map (fun e => e.1) := rfl
  have hval : (InitializeSparseNdw batch cfg).val =
      (batch.item.map (itemEntries cfg batch)).flatten.map (fun e => e.2) := rfl
  have hptr : (InitializeSparseNdw batch cfg).row_ptr =
      (List.range (batch.item.length + 1)).map
        (fun j => (((batch.item.map (itemEntries cfg batch)).take j).flatten).length) := rfl
  have hzip : ((batch.item.map (itemEntries cfg batch)).flatten.map (fun e => e.1)).zip
      ((batch.item.map (itemEntries cfg batch)).flatten.map (fun e => e.2)) =
      (batch.item.map (itemEntries cfg batch)).flatten := by
    rw [List.zip_map']
    simp
  unfold csrRowEntries
  rw [hcol, hval, hptr, hzip, getD_map_range _ _ _ _ (by omega),
    getD_map_range _ _ _ _ (by omega), flatten_take_sub _ _ hdr, flatten_slice _ _ hdr,
    List.getElem_map, List.getD_eq_getElem _ _ hd]

lemma zip_find_eq (a : List ClassId) (b : List ℚ) (cid : ClassId)
    (hlen : a.length = b.length) :
    ((a.zip b).find? (fun p => p.1 == cid)).map (fun p => p.2) =
      if cid ∈ a then some (b.getD (a.indexOf cid) 0) else none := by
  induction a generalizing b with
  | nil => simp
  | cons x a ih =>
    cases b with
    | nil => simp at hlen
    | cons y b =>
      rw [List.zip_cons_cons]
      by_cases hx : x = cid
      · subst hx
        rw [List.find?_cons_of_pos _ (by simp)]
        simp [List.indexOf_cons_self]
      · rw [List.find?_cons_of_neg _ (by simp [hx])]
        rw [ih b (by simpa using hlen)]
        by_cases hmem : cid ∈ a
        · rw [if_pos hmem, if_pos (List.mem_cons_of_mem x hmem),
            List.indexOf_cons_ne _ (by exact hx)]
          simp [List.getD_cons_succ]
        · rw [if_neg hmem, if_neg (by
            simp only [List.mem_cons, not_or]
            exact ⟨fun h => hx h.symm, hmem⟩)]

lemma tokenClassWeight_eq_claim (cfg : ModelConfig) (batch : Batch) (token_id : Nat)
    (hlen : cfg.class_id.length = cfg.class_weight.length) :
    tokenClassWeight cfg batch token_id = claimClassWeight cfg batch token_id := by
  unfold tokenClassWeight claimClassWeight classMapFind
  by_cases h0 : cfg.class_id.length = 0
  · simp [h0]
  · rw [if_pos h0, zip_find_eq cfg.class_id cfg.class_weight _ hlen]
    by_cases hmem : (batch.class_id.getD token_id "") ∈ cfg.class_id
    · rw [if_pos hmem, if_neg h0, if_pos hmem]
    · rw [if_neg hmem, if_neg h0, if_neg hmem]

/-- C4: the CSR row that `build_sparse_ndw` emits for item `d` lists, in
order, one entry per `(token_id, token_count)` pair of the item's fields,
with column `token_id` and value `class_weight(class of token) × token_count`
under the spec's weight rule (`claimClassWeight`). -/
theorem c4_sparse_ndw_row (batch : Batch) (cfg : ModelConfig) (d : Nat)
    (hd : d < batch.item.length)
    (hlen : cfg.class_id.length = cfg.class_weight.length) :
    csrRowEntries (InitializeSparseNdw batch cfg) d =
      (itemPairs (batch.item.getD d emptyItem)).map
        (fun p => (p.1, claimClassWeight cfg batch p.1 * (p.2 : ℚ))) := by
  rw [csrRowEntries_sparse batch cfg d hd]
  unfold itemEntries itemPairs
  rw [List.map_flatMap]
  refine congrArg _ (funext fun f => ?_)
  refine List.map_congr_left fun p _ => ?_
  rw [tokenClassWeight_eq_claim cfg batch p.1 hlen]

/-- Witness for C4 at a concrete one-item batch with a weighted class. -/
theorem c4_witness :
    csrRowEntries (InitializeSparseNdw batchW cfgW) 0 =
      (itemPairs (batchW.item.getD 0 emptyItem)).map
        (fun p => (p.1, claimClassWeight cfgW batchW p.1 * (p.2 : ℚ))) :=
  c4_sparse_ndw_row batchW cfgW 0 (by decide) (by decide)

/- ---------------------------------------------------------------------------
C5.
--------------------------------------------------------------------------- -/

lemma getD_updAt (m : List Vec) (r c : Nat) (x : ℚ) (i : Nat) :
    (updAt m r c x).getD i [] =
      if r = i then List.modify (fun v => v + x) c (m.getD i []) else m.getD i [] := by
  unfold updAt
  rw [List.getD_eq_getElem?_getD, List.getElem?_modify]
  by_cases h : r = i
  · subst h
    cases hm : m[r]? with
    | none => simp [List.getD_eq_getElem?_getD, hm]
    | some row => simp [List.getD_eq_getElem?_getD, hm]
  · simp [h, List.getD_eq_getElem?_getD]

lemma updAt_shape {m : List Vec} {R C : Nat} (hm : MatShape m R C) (r c : Nat) (x : ℚ) :
    MatShape (updAt m r c x) R C := by
  obtain ⟨h1, h2⟩ := hm
  refine ⟨by rw [updAt, List.length_modify, h1], fun i hi => ?_⟩
  rw [getD_updAt]
  by_cases h : r = i
  · rw [if_pos h, List.length_modify, h2 i hi]
  · rw [if_neg h]
    exact h2 i hi

lemma getD_modify_row (row : Vec) (c : Nat) (x : ℚ) (d : Nat) :
    (List.modify (fun v => v + x) c row).getD d 0 =
      if c = d then (if d < row.length then row.getD d 0 + x else 0)
      else row.getD d 0 := by
  rw [List.getD_eq_getElem?_getD, List.getElem?_modify]
  cases hrow : row[d]? with
  | none =>
    have hlen : ¬ d < row.length := by
      intro h
      rw [List.getElem?_eq_getElem h] at hrow
      cases hrow
    simp [hrow, hlen, List.getD_eq_getElem?_getD]
  | some a =>
    have hlen : d < row.length := by
      by_contra hlt
      rw [List.getElem?_eq_none (by omega)] at hrow
      cases hrow
    simp [hrow, hlen, List.getD_eq_getElem?_getD]

lemma getEntry_updAt (m : List Vec) (r c : Nat) (x : ℚ) (t d : Nat)
    (hc : c < (m.getD r []).length) :
    getEntry (updAt m r c x) t d =
      if r = t ∧ c = d then getEntry m t d + x else getEntry m t d := by
  unfold getEntry
  rw [getD_updAt]
  by_cases hrt : r = t
  · subst hrt
    rw [if_pos rfl, getD_modify_row]
    by_cases hcd : c = d
    · subst hcd
      rw [if_pos rfl, if_pos hc, if_pos ⟨rfl, rfl⟩]
    · rw [if_neg hcd, if_neg (fun h => hcd h.2)]
  · rw [if_neg hrt, if_neg (fun h => hrt h.1)]

lemma getEntry_foldl_updAt {R C : Nat} (t d : Nat) (us : List (Nat × Nat × Int)) :
    ∀ (m : List Vec), MatShape m R C → (∀ u ∈ us, u.1 < R ∧ u.2.1 < C) →
    getEntry (us.foldl (fun mm u => updAt mm u.1 u.2.1 (u.2.2 : ℚ)) m) t d =
      getEntry m t d +
        ((us.filter (fun u => u.1 == t && u.2.1 == d)).map (fun u => (u.2.2 : ℚ))).sum := by
  induction us with
  | nil => intro m _ _; simp
  | cons u us ih =>
    intro m hm hb
    have hu := hb u (List.mem_cons_self u us)
    rw [List.foldl_cons,
      ih _ (updAt_shape hm u.1 u.2.1 (u.2.2 : ℚ))
        (fun w hw => hb w (List.mem_cons_of_mem u hw)),
      getEntry_updAt m u.1 u.2.1 _ t d (by rw [hm.2 u.1 (hm.1 ▸ hu.1)]; exact hu.2)]
    by_cases hmatch : u.1 = t ∧ u.2.1 = d
    · rw [if_pos hmatch, List.filter_cons,
        if_pos (by simp [hmatch.1, hmatch.2]), List.map_cons, List.sum_cons]
      ring
    · rw [if_neg hmatch, List.filter_cons, if_neg (by
        simp only [Bool.and_eq_true, beq_iff_eq]
        exact hmatch)]

lemma zerosMat_shape (R C : Nat) : MatShape (zerosMat R C) R C := by
  refine ⟨by simp [zerosMat], fun i hi => ?_⟩
  rw [zerosMat, List.getD_eq_getElem?_getD, List.getElem?_replicate, if_pos hi]
  simp

lemma getEntry_zerosMat (R C t d : Nat) : getEntry (zerosMat R C) t d = 0 := by
  unfold getEntry zerosMat
  by_cases ht : t < R
  · have h1 : (List.replicate R (List.replicate C (0 : ℚ))).getD t [] =
        List.replicate C (0 : ℚ) := by
      rw [List.getD_eq_getElem?_getD, List.getElem?_replicate, if_pos ht]
      rfl
    rw [h1]
    by_cases hd2 : d < C
    · rw [List.getD_eq_getElem?_getD, List.getElem?_replicate, if_pos hd2]
      rfl
    · rw [List.getD_eq_getElem?_getD, List.getElem?_replicate, if_neg hd2]
      rfl
  · have h1 : (List.replicate R (List.replicate C (0 : ℚ))).getD t [] = [] := by
      rw [List.getD_eq_getElem?_getD, List.getElem?_replicate, if_neg ht]
      rfl
    rw [h1]
    rfl

lemma foldl_updAt_shape {R C : Nat} (us : List (Nat × Nat × Int)) :
    ∀ (m : List Vec), MatShape m R C →
    MatShape (us.foldl (fun mm u => updAt mm u.1 u.2.1 (u.2.2 : ℚ)) m) R C := by
  induction us with
  | nil => intro m hm; exact hm
  | cons u us ih =>
    intro m hm
    rw [List.foldl_cons]
    exact ih _ (updAt_shape hm u.1 u.2.1 (u.2.2 : ℚ))

lemma sum_filter_flatMap (l : List Nat) (g : Nat → List (Nat × Nat × Int))
    (q : Nat × Nat × Int → Bool) (val : Nat × Nat × Int → ℚ) :
    (((l.flatMap g).filter q).map val).sum =
      (l.map (fun i => (((g i).filter q).map val).sum)).sum := by
  induction l with
  | nil => rfl
  | cons a l ih =>
    rw [List.flatMap_cons, List.filter_append, List.map_append, List.sum_append, ih,
      List.map_cons, List.sum_cons]

lemma sum_map_range_single (n d : Nat) (h : Nat → ℚ) (hd : d < n)
    (hz : ∀ i, i ≠ d → h i = 0) : ((List.range n).map h).sum = h d := by
  induction n with
  | zero => omega
  | succ m ih =>
    rw [List.range_succ, List.map_append, List.sum_append]
    by_cases hdm : d = m
    · subst hdm
      have hzero : ∀ x ∈ (List.range d).map h, x = 0 := by
        intro x hx
        obtain ⟨i, hi, rfl⟩ := List.mem_map.mp hx
        exact hz i (by have := List.mem_range.mp hi; omega)
      rw [List.sum_eq_zero hzero]
      simp
    · rw [ih (by omega)]
      simp [hz m (fun hmd => hdm hmd.symm)]

/-- C5: `build_dense_ndw` is a `token_size × item_size` matrix whose
`(t, d)` entry is the plain sum of `token_count` over the occurrences of
token `t` in item `d`'s fields, with no class weight consulted; on the same
one-item batch a config with class weight 2 makes the sparse `n_dw` value
differ from the dense one. -/
theorem c5_dense_ndw (batch : Batch) (t d : Nat) (hd : d < batch.item.length)
    (hb : ∀ it ∈ batch.item, ∀ p ∈ itemPairs it, p.1 < batch.token.length) :
    MatShape (InitializeDenseNdw batch) batch.token.length batch.item.length ∧
    getEntry (InitializeDenseNdw batch) t d =
      (((itemPairs (batch.item.getD d emptyItem)).filter (fun p => p.1 == t)).map
        (fun p => (p.2 : ℚ))).sum ∧
    (InitializeSparseNdw batchW cfgW).val.getD 0 0 ≠
      getEntry (InitializeDenseNdw batchW) 0 0 := by
  have hbounds : ∀ u ∈ denseUpdates batch,
      u.1 < batch.token.length ∧ u.2.1 < batch.item.length := by
    intro u hu
    obtain ⟨i, hi, hmem⟩ := List.mem_flatMap.mp hu
    obtain ⟨p, hp, rfl⟩ := List.mem_map.mp hmem
    have hirange := List.mem_range.mp hi
    refine ⟨?_, hirange⟩
    refine hb (batch.item.getD i emptyItem) ?_ p hp
    rw [List.getD_eq_getElem _ _ hirange]
    exact List.getElem_mem hirange
  refine ⟨foldl_updAt_shape _ _ (zerosMat_shape _ _), ?_, ?_⟩
  · unfold InitializeDenseNdw
    rw [getEntry_foldl_updAt t d _ _ (zerosMat_shape _ _) hbounds, getEntry_zerosMat,
      zero_add]
    unfold denseUpdates
    rw [sum_filter_flatMap]
    rw [sum_map_range_single batch.item.length d _ hd (fun i hi => ?_)]
    · congr 1
      rw [List.filter_map]
      rw [List.map_map]
      congr 1
      refine List.filter_congr fun p _ => ?_
      simp
    · have hfe : ((itemPairs (batch.item.getD i emptyItem)).map
          (fun p => (p.1, i, p.2))).filter (fun u => u.1 == t && u.2.1 == d) = [] := by
        rw [List.filter_map, List.filter_eq_nil_iff.mpr]
        · rfl
        · intro p _
          simp [hi]
      rw [hfe]
      rfl
  · have hs : (InitializeSparseNdw batchW cfgW).val.getD 0 0 = 2 := by
      simp [InitializeSparseNdw, batchW, cfgW, itemEntries, tokenClassWeight,
        classMapFind, emptyItem]
    have hden : getEntry (InitializeDenseNdw batchW) 0 0 = 1 := by
      simp [InitializeDenseNdw, denseUpdates, itemPairs, batchW, emptyItem, zerosMat,
        updAt, getEntry, List.modify, List.range_succ]
    rw [hs, hden]
    norm_num

/-- Witness for C5 at a concrete one-item batch. -/
theorem c5_witness :
    getEntry (InitializeDenseNdw batchW) 0 0 =
      (((itemPairs (batchW.item.getD 0 emptyItem)).filter (fun p => p.1 == 0)).map
        (fun p => (p.2 : ℚ))).sum ∧
    (InitializeSparseNdw batchW cfgW).val.getD 0 0 ≠
      getEntry (InitializeDenseNdw batchW) 0 0 := by
  have h := c5_dense_ndw batchW 0 0 (by decide) (by
    intro it hit p hp
    simp [batchW, emptyItem] at hit
    subst hit
    simp [itemPairs, emptyItem] at hp
    subst hp
    simp [batchW])
  exact ⟨h.2.1, h.2.2⟩

/- ---------------------------------------------------------------------------
C3.
--------------------------------------------------------------------------- -/

lemma processModelStep_incs (merger : String → TopicModel) (reg : RegFun)
    (rand : RandFun) (part : ProcessorInput) (cfg : ModelConfig)
    (h : (processModelStep merger reg rand part cfg).2 = none) :
    (processModelStep merger reg rand part cfg).1.toList.length =
      if cfg.enabled then 1 else 0 := by
  by_cases he : cfg.enabled = true
  · by_cases hsz : cfg.class_id.length = cfg.class_weight.length
    · by_cases htp : (merger cfg.name).topic_size = cfg.topics_count
      · rcases hphi : InitializePhi part.batch cfg (merger cfg.name) with - | phi
        · simp [processModelStep, he, hsz, htp, hphi]
        · rcases hfill : fillIncrementValues
              (InitializeModelIncrement part cfg (merger cfg.name))
              (if cfg.use_sparse_bow then
                CalculateNwtSparse cfg (streamMaskOf part cfg) reg
                  (InitializeSparseNdw part.batch cfg) phi (merger cfg.name).topic_size
                  (InitializeTheta part.batch cfg (FindCacheEntry part cfg) rand)
              else
                CalculateNwtDense cfg (streamMaskOf part cfg) reg
                  (InitializeDenseNdw part.batch) phi (merger cfg.name).topic_size
                  (InitializeTheta part.batch cfg (FindCacheEntry part cfg) rand)).1
              (merger cfg.name).topic_size with ⟨inc2, e2⟩
          rw [htp] at hfill
          cases e2 with
          | none => simp [processModelStep, he, hsz, htp, hphi, hfill]
          | some e =>
            exfalso
            simp [processModelStep, he, hsz, htp, hphi, hfill] at h
      · exfalso
        simp [processModelStep, he, hsz, htp] at h
    · exfalso
      simp [processModelStep, he, hsz] at h
  · simp [processModelStep, he]

lemma processBatchModels_count (merger : String → TopicModel) (reg : RegFun)
    (rand : RandFun) (part : ProcessorInput) :
    ∀ (cfgs : List ModelConfig) (incs : List ModelIncrement),
    processBatchModels merger reg rand part cfgs = (incs, none) →
    incs.length = (cfgs.filter (fun c => c.enabled)).length := by
  intro cfgs
  induction cfgs with
  | nil =>
    intro incs h
    rw [processBatchModels] at h
    injection h with h1 _
    rw [← h1]
    rfl
  | cons cfg rest ih =>
    intro incs h
    rw [processBatchModels] at h
    rcases hstep : processModelStep merger reg rand part cfg with ⟨inc, e1⟩
    rw [hstep] at h
    cases e1 with
    | some e =>
      exfalso
      simp at h
    | none =>
      rcases hrest : processBatchModels merger reg rand part rest with ⟨l, e2⟩
      rw [hrest] at h
      simp only [Prod.mk.injEq] at h
      obtain ⟨hincs, he2⟩ := h
      subst he2
      have hcount := processModelStep_incs merger reg rand part cfg
        (by rw [hstep])
      rw [hstep] at hcount
      rw [← hincs, List.length_append, List.filter_cons, hcount, ih l hrest]
      by_cases he : cfg.enabled = true
      · simp [he]
        omega
      · simp [he]

/-- C3: when a batch is processed without a fatal error, exactly one model
increment is pushed per enabled model of the schema, in order; and on the
empty-Phi early return the pushed increment is exactly the skeleton built by
`InitializeModelIncrement` (tokens, operation types, zero-filled
`IncrementValue` rows). -/
theorem c3_one_increment_per_enabled_model (merger : String → TopicModel)
    (reg : RegFun) (rand : RandFun) (part : ProcessorInput)
    (cfgs : List ModelConfig) (incs : List ModelIncrement)
    (h : processBatch merger reg rand part cfgs = (incs, none)) :
    incs.length = (cfgs.filter (fun c => c.enabled)).length ∧
    (∀ cfg : ModelConfig, cfg.enabled = true →
      cfg.class_id.length = cfg.class_weight.length →
      (merger cfg.name).topic_size = cfg.topics_count →
      InitializePhi part.batch cfg (merger cfg.name) = none →
      processModelStep merger reg rand part cfg =
        (some (InitializeModelIncrement part cfg (merger cfg.name)), none)) := by
  constructor
  · unfold processBatch at h
    by_cases hv : part.batch.class_id.length ≠ part.batch.token.length
    · rw [if_pos hv] at h
      exfalso
      injection h with _ h2
      exact Option.noConfusion h2
    · rw [if_neg hv] at h
      exact processBatchModels_count merger reg rand part cfgs incs h
  · intro cfg he hsz htp hphi
    simp [processModelStep, he, hsz, htp, hphi]

/-- Witness for C3 at a concrete empty batch with one enabled model. -/
theorem c3_witness :
    ([InitializeModelIncrement partE cfgE tmE] : List ModelIncrement).length =
      ([cfgE].filter (fun c => c.enabled)).length ∧
    processModelStep mergerE regId randZero partE cfgE =
      (some (InitializeModelIncrement partE cfgE tmE), none) := by
  have hE : processBatch mergerE regId randZero partE [cfgE] =
      ([InitializeModelIncrement partE cfgE tmE], none) := by
    simp [processBatch, processBatchModels, processModelStep, partE, cfgE, mergerE,
      tmE, InitializePhi]
  have h := c3_one_increment_per_enabled_model mergerE regId randZero partE [cfgE]
    [InitializeModelIncrement partE cfgE tmE] hE
  exact ⟨h.1, h.2 cfgE rfl rfl rfl rfl⟩

/- ---------------------------------------------------------------------------
C8.
--------------------------------------------------------------------------- -/

/-- C8: `FindThetaMatrix` fails with `ArgumentOutOfRange` exactly when no
topic model exists under the requested name; given a model, it fails with
`Internal` exactly when the config's `class_id`/`class_weight` lengths
differ or `topic_size` differs from `topics_count`; and when all checks
pass it runs the preparation and EM loop with no stream mask and no theta
cache. -/
theorem c8_find_theta_matrix (merger : String → Option TopicModel)
    (getCfg : String → ModelConfig) (reg : RegFun) (rand : RandFun)
    (batch : Batch) (model_name : String) :
    (FindThetaMatrix merger getCfg reg rand batch model_name =
        Except.error ProcErr.argumentOutOfRange ↔ merger model_name = none) ∧
    (∀ tm, merger model_name = some tm →
      (FindThetaMatrix merger getCfg reg rand batch model_name =
          Except.error ProcErr.internal ↔
        ((getCfg model_name).class_id.length ≠ (getCfg model_name).class_weight.length ∨
          tm.topic_size ≠ (getCfg model_name).topics_count))) ∧
    (∀ tm, merger model_name = some tm →
      (getCfg model_name).class_id.length = (getCfg model_name).class_weight.length →
      tm.topic_size = (getCfg model_name).topics_count →
      FindThetaMatrix merger getCfg reg rand batch model_name =
        (match InitializePhi batch (getCfg model_name) tm with
         | none => Except.ok none
         | some phi =>
           if (getCfg model_name).use_sparse_bow then
             Except.ok (some (CalculateNwtSparse (getCfg model_name) none reg
               (InitializeSparseNdw batch (getCfg model_name)) phi tm.topic_size
               (InitializeTheta batch (getCfg model_name) none rand)).2)
           else
             Except.ok (some (CalculateNwtDense (getCfg model_name) none reg
               (InitializeDenseNdw batch) phi tm.topic_size
               (InitializeTheta batch (getCfg model_name) none rand)).2))) := by
  rcases hm : merger model_name with - | tm
  · refine ⟨by simp [FindThetaMatrix, hm], fun tm htm => ?_, fun tm htm => ?_⟩
    · cases htm
    · cases htm
  · refine ⟨?_, fun tm2 htm2 => ?_, fun tm2 htm2 h1 h2 => ?_⟩
    · rw [iff_false_intro (by simp : ¬ (some tm = none)), iff_false]
      by_cases h1 : (getCfg model_name).class_id.length =
          (getCfg model_name).class_weight.length
      · by_cases h2 : tm.topic_size = (getCfg model_name).topics_count
        · rcases hphi : InitializePhi batch (getCfg model_name) tm with - | phi
          · simp [FindThetaMatrix, hm, h1, h2, hphi]
          · by_cases hsb : (getCfg model_name).use_sparse_bow
            · simp [FindThetaMatrix, hm, h1, h2, hphi, hsb]
            · simp [FindThetaMatrix, hm, h1, h2, hphi, hsb]
        · simp [FindThetaMatrix, hm, h1, h2]
      · simp [FindThetaMatrix, hm, h1]
    · injection htm2 with htm2
      subst htm2
      by_cases h1 : (getCfg model_name).class_id.length =
          (getCfg model_name).class_weight.length
      · by_cases h2 : tm.topic_size = (getCfg model_name).topics_count
        · have hrhs : ¬ ((getCfg model_name).class_id.length ≠
              (getCfg model_name).class_weight.length ∨
              tm.topic_size ≠ (getCfg model_name).topics_count) := by
            simp only [not_or, not_not]
            exact ⟨h1, h2⟩
          rw [iff_false_intro hrhs, iff_false]
          rcases hphi : InitializePhi batch (getCfg model_name) tm with - | phi
          · simp [FindThetaMatrix, hm, h1, h2, hphi]
          · by_cases hsb : (getCfg model_name).use_sparse_bow
            · simp [FindThetaMatrix, hm, h1, h2, hphi, hsb]
            · simp [FindThetaMatrix, hm, h1, h2, hphi, hsb]
        · simp [FindThetaMatrix, hm, h1, h2]
      · simp [FindThetaMatrix, hm, h1]
    · injection htm2 with htm2
      subst htm2
      rcases hphi : InitializePhi batch (getCfg model_name) tm with - | phi
      · simp [FindThetaMatrix, hm, h1, h2, hphi]
      · by_cases hsb : (getCfg model_name).use_sparse_bow
        · simp [FindThetaMatrix, hm, h1, h2, hphi, hsb]
        · simp [FindThetaMatrix, hm, h1, h2, hphi, hsb]

/-- Witness for C8: an unknown model name and a length-mismatched config. -/
theorem c8_witness :
    FindThetaMatrix (fun _ => none) (fun _ => cfgE) regId randZero batchW "m" =
      Except.error ProcErr.argumentOutOfRange ∧
    FindThetaMatrix (fun _ => some tmE) (fun _ => cfgBad) regId randZero batchW "m" =
      Except.error ProcErr.internal :=
  ⟨(c8_find_theta_matrix (fun _ => none) (fun _ => cfgE) regId randZero batchW "m").1.mpr
      rfl,
   ((c8_find_theta_matrix (fun _ => some tmE) (fun _ => cfgBad) regId randZero
      batchW "m").2.1 tmE rfl).mpr (Or.inl (by decide))⟩
